import Mathlib

/-!
Verification of the MusicXML transposition engine (src/transpose.py).

The engine's data and logic are embedded shallowly:

* Python ints are `Int`; Python `%` and `//` (floor modulus / floor
  division) are `Int.emod` (written `%`, which agrees with Python's `%`
  for the positive modulus 12 used throughout) and `Int.fdiv`.
* A pitch letter is the inductive `Letter`; the dictionaries
  (`KEY_SIGNATURES`, `base_notes`, the naturals / sharp / flat spelling
  maps) are functions into `Option`, so that a failed dictionary lookup
  (Python `KeyError`) is visible as `none`.
* The XML tree is abstracted to its sequence of markers in document
  order: a `pitch` element is the list of its child nodes (step / alter /
  octave, order preserved, since the code inserts an alter child at a
  fixed position), and a document is a list of key and pitch elements.
  `ET.find` returns the first matching child; in-place mutation becomes
  rewriting the first matching node of the list.
* The fallible `transpose_musicxml` returns `Except PyError`; the
  `PyError` constructors stand for the two `ValueError`s the code raises
  and for a `KeyError` escaping from a dictionary lookup.  File I/O and
  printing are not modelled; the returned document and output path are.
-/

/-- A pitch letter (the `step` text of a pitch element).  The code's
dictionaries are only defined on these seven letters; the spec declares any
other step text undefined behaviour, so the embedding fixes the type. -/
inductive Letter
  | C
  | D
  | E
  | F
  | G
  | A
  | B
deriving DecidableEq, Repr

/-- The accidental kind stored in the `KEY_SIGNATURES` table
(`'sharp'`, `'flat'`; Python `None` is `Option.none`). -/
inductive Accidental
  | sharp
  | flat
deriving DecidableEq, Repr

/-- The `MusicXMLFile` dataclass of src/transpose.py. -/
structure MusicXMLFile where
  file_path : String
  key_signature : Option Int
  time_signature : Option (Int × Int)
  part_name : Option String
deriving DecidableEq, Repr

/-- The `KEY_SIGNATURES` dictionary: fifths value to
(tonic letter, accidental kind, accidental count); `none` outside -7..7. -/
def KEY_SIGNATURES (fifths : Int) : Option (Letter × Option Accidental × Nat) :=
  if fifths = -7 then some (.C, some .flat, 7)
  else if fifths = -6 then some (.G, some .flat, 6)
  else if fifths = -5 then some (.D, some .flat, 5)
  else if fifths = -4 then some (.A, some .flat, 4)
  else if fifths = -3 then some (.E, some .flat, 3)
  else if fifths = -2 then some (.B, some .flat, 2)
  else if fifths = -1 then some (.F, none, 1)
  else if fifths = 0 then some (.C, none, 0)
  else if fifths = 1 then some (.G, none, 1)
  else if fifths = 2 then some (.D, none, 2)
  else if fifths = 3 then some (.A, none, 3)
  else if fifths = 4 then some (.E, none, 4)
  else if fifths = 5 then some (.B, none, 5)
  else if fifths = 6 then some (.F, some .sharp, 6)
  else if fifths = 7 then some (.C, some .sharp, 7)
  else none

/-- The `base_notes` dictionary inside `note_to_chromatic`.  It is total on
`Letter` (every letter is a key of the Python dict). -/
def base_notes : Letter → Int
  | .C => 0
  | .D => 2
  | .E => 4
  | .F => 5
  | .G => 7
  | .A => 9
  | .B => 11

/-- `note_to_chromatic(step, alter)`: `(base_notes[step] + alter) % 12`. -/
def note_to_chromatic (step : Letter) (alter : Int) : Int :=
  (base_notes step + alter) % 12

/-- The `naturals` dictionary of `chromatic_to_note`. -/
def naturals (c : Int) : Option Letter :=
  if c = 0 then some .C
  else if c = 2 then some .D
  else if c = 4 then some .E
  else if c = 5 then some .F
  else if c = 7 then some .G
  else if c = 9 then some .A
  else if c = 11 then some .B
  else none

/-- The `sharp_map` dictionary of `chromatic_to_note`. -/
def sharp_map (c : Int) : Option (Letter × Int) :=
  if c = 1 then some (.C, 1)
  else if c = 3 then some (.D, 1)
  else if c = 6 then some (.F, 1)
  else if c = 8 then some (.G, 1)
  else if c = 10 then some (.A, 1)
  else none

/-- The `flat_map` dictionary of `chromatic_to_note`. -/
def flat_map (c : Int) : Option (Letter × Int) :=
  if c = 1 then some (.D, -1)
  else if c = 3 then some (.E, -1)
  else if c = 6 then some (.G, -1)
  else if c = 8 then some (.A, -1)
  else if c = 10 then some (.B, -1)
  else none

/-- The body of `chromatic_to_note` after the reassignment
`chromatic_index = chromatic_index % 12`: look the reduced index up in
`naturals`, and failing that in `sharp_map` or `flat_map` per the flag. -/
def chromaticSpell (c : Int) (prefer_sharps : Bool) : Option (Letter × Int) :=
  match naturals c with
  | some l => some (l, 0)
  | none => if prefer_sharps then sharp_map c else flat_map c

/-- `chromatic_to_note(chromatic_index, prefer_sharps)`: the index is reduced
modulo 12 first, then spelled.  `none` would be a Python `KeyError`. -/
def chromatic_to_note (chromatic_index : Int) (prefer_sharps : Bool) :
    Option (Letter × Int) :=
  chromaticSpell (chromatic_index % 12) prefer_sharps

theorem chromaticSpell_isSome (c : Int) (h0 : 0 ≤ c) (h1 : c < 12) (p : Bool) :
    (chromaticSpell c p).isSome = true := by
  interval_cases c <;> cases p <;> decide

theorem chromatic_to_note_total (chromatic_index : Int) (prefer_sharps : Bool) :
    (chromatic_to_note chromatic_index prefer_sharps).isSome = true :=
  chromaticSpell_isSome _ (Int.emod_nonneg _ (by norm_num))
    (Int.emod_lt_of_pos _ (by norm_num)) prefer_sharps

/-- `chromatic_to_note` with the (always succeeding) lookup discharged: the
pair the Python function returns. -/
def chromatic_to_note_get (chromatic_index : Int) (prefer_sharps : Bool) :
    Letter × Int :=
  (chromatic_to_note chromatic_index prefer_sharps).get
    (chromatic_to_note_total chromatic_index prefer_sharps)

/-- The conditional expression `1 if kind == 'sharp' else -1 if kind == 'flat'
else 0` used twice inside `calculate_semitone_shift`. -/
def accidentalAlter : Option Accidental → Int
  | some .sharp => 1
  | some .flat => -1
  | none => 0

/-- The error values `transpose_musicxml` can produce: its two designed
`ValueError`s, and a `KeyError` escaping from an unchecked dictionary
lookup (`KEY_SIGNATURES[from_key]` inside `calculate_semitone_shift`). -/
inductive PyError
  | valueErrorNoSource
  | valueErrorBadTarget (got : Int)
  | keyError (key : Int)
deriving DecidableEq, Repr

/-- The spec's `InvalidKeyError` taxonomy entry corresponds to the designed
`ValueError`s of `transpose_musicxml`; an escaping `KeyError` is an
unhandled lookup failure, not one of the spec's recoverable conditions. -/
def isInvalidKeyError : PyError → Bool
  | .valueErrorNoSource => true
  | .valueErrorBadTarget _ => true
  | .keyError _ => false

/-- `calculate_semitone_shift(from_key, to_key)`.  The two table lookups are
unchecked in the source, so an absent key surfaces as a `KeyError` (the
`from_key` lookup is evaluated first). -/
def calculate_semitone_shift (from_key : Int) (to_key : Int) : Except PyError Int :=
  match KEY_SIGNATURES from_key with
  | none => .error (.keyError from_key)
  | some (from_letter, from_acc, _) =>
    match KEY_SIGNATURES to_key with
    | none => .error (.keyError to_key)
    | some (to_letter, to_acc, _) =>
      let from_tonic := note_to_chromatic from_letter (accidentalAlter from_acc)
      let to_tonic := note_to_chromatic to_letter (accidentalAlter to_acc)
      .ok ((to_tonic - from_tonic) % 12)

/-- A child node of a `pitch` element: its `step`, `alter` or `octave`
child together with the (parsed) text it carries. -/
inductive PitchNode
  | step (letter : Letter)
  | alter (value : Int)
  | octave (value : Int)
deriving DecidableEq, Repr

/-- `pitch_elem.find("step")`: the first step child's letter. -/
def find_step : List PitchNode → Option Letter
  | [] => none
  | .step l :: _ => some l
  | _ :: rest => find_step rest

/-- `pitch_elem.find("alter")`: the first alter child's value. -/
def find_alter : List PitchNode → Option Int
  | [] => none
  | .alter v :: _ => some v
  | _ :: rest => find_alter rest

/-- `pitch_elem.find("octave")`: the first octave child's value. -/
def find_octave : List PitchNode → Option Int
  | [] => none
  | .octave v :: _ => some v
  | _ :: rest => find_octave rest

/-- `step.text = ...`: overwrite the first step child in place. -/
def set_step (l : Letter) : List PitchNode → List PitchNode
  | [] => []
  | .step _ :: rest => .step l :: rest
  | n :: rest => n :: set_step l rest

/-- `octave.text = ...`: overwrite the first octave child in place. -/
def set_octave (v : Int) : List PitchNode → List PitchNode
  | [] => []
  | .octave _ :: rest => .octave v :: rest
  | n :: rest => n :: set_octave v rest

/-- `alter.text = ...`: overwrite the first alter child in place. -/
def set_alter (v : Int) : List PitchNode → List PitchNode
  | [] => []
  | .alter _ :: rest => .alter v :: rest
  | n :: rest => n :: set_alter v rest

/-- `pitch_elem.remove(alter)`: drop the first alter child. -/
def remove_alter : List PitchNode → List PitchNode
  | [] => []
  | .alter _ :: rest => rest
  | n :: rest => n :: remove_alter rest

/-- `pitch_elem.insert(1, alter)`: Python list insertion at index 1. -/
def insertAt1 (x : PitchNode) : List PitchNode → List PitchNode
  | [] => [x]
  | n :: rest => n :: x :: rest

/-- The per-pitch body of the rewriting loop of `transpose_musicxml`
(lines 135-174 of src/transpose.py): a pitch element missing its step or
octave child is returned untouched; otherwise step and octave are
overwritten and the alter child is removed / overwritten / inserted at
index 1 according to the new alteration. -/
def transpose_pitch (semitone_shift : Int) (prefer_sharps : Bool)
    (children : List PitchNode) : List PitchNode :=
  match find_step children, find_octave children with
  | some current_step, some current_octave =>
    let current_alter := (find_alter children).getD 0
    let chromatic_value := note_to_chromatic current_step current_alter
    let new_chromatic := (chromatic_value + semitone_shift) % 12
    let octave_shift := Int.fdiv (chromatic_value + semitone_shift) 12
    let new_octave := current_octave + octave_shift
    let ns := chromatic_to_note_get new_chromatic prefer_sharps
    let children1 := set_step ns.1 children
    let children2 := set_octave new_octave children1
    if ns.2 = 0 then remove_alter children2
    else if (find_alter children).isSome then set_alter ns.2 children2
    else insertAt1 (.alter ns.2) children2
  | _, _ => children

/-- A marker of the score document, in document order: a key element (with
its optional `fifths` child), a pitch element (with its child nodes), or
any other element the rewriter does not touch. -/
inductive Elem
  | key (fifths : Option Int)
  | pitch (children : List PitchNode)
  | other
deriving DecidableEq, Repr

/-- One step of the two rewriting loops of `transpose_musicxml`: a key
element with a fifths child gets the target key written into it, a pitch
element goes through `transpose_pitch`, everything else is untouched. -/
def transpose_elem (target_key : Int) (semitone_shift : Int)
    (prefer_sharps : Bool) : Elem → Elem
  | .key (some _) => .key (some target_key)
  | .key none => .key none
  | .pitch children => .pitch (transpose_pitch semitone_shift prefer_sharps children)
  | .other => .other

/-- `PurePosixPath`-style helper: the final path component. -/
def pathName (p : String) : String :=
  (p.splitOn "/").getLastD p

/-- `Path.stem`: the final component without its last suffix (a name with no
dot, or consisting only of a leading dot and one suffix, is its own stem). -/
def pathStem (p : String) : String :=
  match (pathName p).splitOn "." with
  | [] => pathName p
  | [_] => pathName p
  | ["", _] => pathName p
  | parts => String.intercalate "." parts.dropLast

/-- `Path.with_name`: replace the final path component. -/
def pathWithName (p : String) (name : String) : String :=
  String.intercalate "/" ((p.splitOn "/").dropLast ++ [name])

/-- The letter as it is interpolated into the output file name. -/
def letterText : Letter → String
  | .C => "C"
  | .D => "D"
  | .E => "E"
  | .F => "F"
  | .G => "G"
  | .A => "A"
  | .B => "B"

/-- The default output path of `transpose_musicxml`:
`original.with_name(original.stem + "_transposed_to_<letter>.xml")`. -/
def default_output_path (file_path : String) (target_letter : Letter) : String :=
  pathWithName file_path
    (pathStem file_path ++ "_transposed_to_" ++ letterText target_letter ++ ".xml")

/-- `transpose_musicxml(music_file, target_key, output_path)` on a document
`doc` (the parsed tree, abstracted to its marker sequence): validate, compute
the shift and the spelling policy, rewrite every key and pitch marker, and
return the rewritten document with the path it is serialized to. -/
def transpose_musicxml (music_file : MusicXMLFile) (target_key : Int)
    (output_path : Option String) (doc : List Elem) :
    Except PyError (List Elem × String) :=
  match music_file.key_signature with
  | none => .error .valueErrorNoSource
  | some source_key =>
    match KEY_SIGNATURES target_key with
    | none => .error (.valueErrorBadTarget target_key)
    | some (target_letter, _, _) =>
      match calculate_semitone_shift source_key target_key with
      | .error e => .error e
      | .ok semitone_shift =>
        let prefer_sharps := decide (0 ≤ target_key)
        let new_doc := doc.map (transpose_elem target_key semitone_shift prefer_sharps)
        let out := match output_path with
          | some p => p
          | none => default_output_path music_file.file_path target_letter
        .ok (new_doc, out)

/-- A well-formed pitch element as the input schema describes it: a step
child, an optional alter child, then an octave child. -/
def mkPitch (l : Letter) (a : Option Int) (o : Int) : List PitchNode :=
  match a with
  | none => [.step l, .octave o]
  | some v => [.step l, .alter v, .octave o]

/-- Schema conformance of one marker: a pitch element must have the
`mkPitch` shape; key and other markers are unconstrained. -/
def wfElem : Elem → Bool
  | .pitch [.step _, .octave _] => true
  | .pitch [.step _, .alter _, .octave _] => true
  | .pitch _ => false
  | _ => true

/-- The observable content of a marker that the round-trip property speaks
about: the chromatic pitch class and the octave of a pitch marker (and
`none` for key or other markers, or a pitch missing step or octave). -/
def elemView : Elem → Option (Int × Int)
  | .pitch cs =>
    match find_step cs, find_octave cs with
    | some l, some o => some (note_to_chromatic l ((find_alter cs).getD 0), o)
    | _, _ => none
  | _ => none

/-! ### Basic facts about the pitch algebra -/

theorem note_to_chromatic_nonneg (l : Letter) (a : Int) :
    0 ≤ note_to_chromatic l a :=
  Int.emod_nonneg _ (by norm_num)

theorem note_to_chromatic_lt (l : Letter) (a : Int) :
    note_to_chromatic l a < 12 :=
  Int.emod_lt_of_pos _ (by norm_num)

/-- The spelling returned for an in-range chromatic class projects back to
that class, and its alteration is -1, 0 or 1. -/
theorem chromatic_to_note_get_inv (c : Int) (h0 : 0 ≤ c) (h1 : c < 12) (p : Bool) :
    note_to_chromatic (chromatic_to_note_get c p).1 (chromatic_to_note_get c p).2 = c ∧
      ((chromatic_to_note_get c p).2 = -1 ∨ (chromatic_to_note_get c p).2 = 0 ∨
        (chromatic_to_note_get c p).2 = 1) := by
  interval_cases c <;> cases p <;> exact ⟨by decide, by decide⟩

/-- A natural letter spells back to itself under either policy. -/
theorem chromatic_to_note_get_natural (l : Letter) (p : Bool) :
    chromatic_to_note_get (note_to_chromatic l 0) p = (l, 0) := by
  cases l <;> cases p <;> rfl


/-! ### The rewriter on schema-conforming pitch elements -/

/-- What `transpose_pitch` does to a schema-conforming pitch element:
letter and octave are rewritten in place, and the alter child ends up
removed (new alteration 0), overwritten, or inserted at index 1 - in every
case the result is again the `mkPitch` shape. -/
theorem transpose_pitch_mkPitch (s : Int) (p : Bool) (l : Letter)
    (a : Option Int) (o : Int) :
    transpose_pitch s p (mkPitch l a o) =
      mkPitch (chromatic_to_note_get ((note_to_chromatic l (a.getD 0) + s) % 12) p).1
        (if (chromatic_to_note_get ((note_to_chromatic l (a.getD 0) + s) % 12) p).2 = 0
          then none
          else some (chromatic_to_note_get ((note_to_chromatic l (a.getD 0) + s) % 12) p).2)
        (o + Int.fdiv (note_to_chromatic l (a.getD 0) + s) 12) := by
  cases a with
  | none =>
    by_cases h : (chromatic_to_note_get ((note_to_chromatic l 0 + s) % 12) p).2 = 0 <;>
      simp [transpose_pitch, mkPitch, find_step, find_octave, find_alter, set_step,
        set_octave, set_alter, remove_alter, insertAt1, h]
  | some v =>
    by_cases h : (chromatic_to_note_get ((note_to_chromatic l v + s) % 12) p).2 = 0 <;>
      simp [transpose_pitch, mkPitch, find_step, find_octave, find_alter, set_step,
        set_octave, set_alter, remove_alter, insertAt1, h]

/-! ### Facts about the semitone shift -/

theorem KEY_SIGNATURES_isSome_of_range (k : Int) (h0 : -7 ≤ k) (h1 : k ≤ 7) :
    (KEY_SIGNATURES k).isSome = true := by
  interval_cases k <;> decide

theorem calculate_semitone_shift_ok (from_key to_key : Int)
    (h1 : (KEY_SIGNATURES from_key).isSome = true)
    (h2 : (KEY_SIGNATURES to_key).isSome = true) :
    ∃ s, calculate_semitone_shift from_key to_key = .ok s ∧ 0 ≤ s ∧ s < 12 := by
  rcases hf : KEY_SIGNATURES from_key with _ | ⟨fl, fa, fc⟩
  · rw [hf] at h1; simp at h1
  rcases ht : KEY_SIGNATURES to_key with _ | ⟨tl, ta, tc⟩
  · rw [ht] at h2; simp at h2
  refine ⟨(note_to_chromatic tl (accidentalAlter ta) -
      note_to_chromatic fl (accidentalAlter fa)) % 12, ?_, ?_, ?_⟩
  · simp [calculate_semitone_shift, hf, ht]
  · exact Int.emod_nonneg _ (by norm_num)
  · exact Int.emod_lt_of_pos _ (by norm_num)

/-- Transposing a key to itself is a zero shift. -/
theorem calculate_semitone_shift_self (k : Int)
    (h : (KEY_SIGNATURES k).isSome = true) :
    calculate_semitone_shift k k = .ok 0 := by
  rcases hf : KEY_SIGNATURES k with _ | ⟨fl, fa, fc⟩
  · rw [hf] at h; simp at h
  simp [calculate_semitone_shift, hf]

/-- The two directions of a shift between valid keys are complements
modulo 12. -/
theorem calculate_semitone_shift_symm (k1 k2 : Int)
    (h1 : (KEY_SIGNATURES k1).isSome = true)
    (h2 : (KEY_SIGNATURES k2).isSome = true) :
    ∃ s1 s2, calculate_semitone_shift k1 k2 = .ok s1 ∧
      calculate_semitone_shift k2 k1 = .ok s2 ∧
      0 ≤ s1 ∧ s1 < 12 ∧ 0 ≤ s2 ∧ s2 < 12 ∧ (s1 + s2) % 12 = 0 := by
  rcases hf : KEY_SIGNATURES k1 with _ | ⟨fl, fa, fc⟩
  · rw [hf] at h1; simp at h1
  rcases ht : KEY_SIGNATURES k2 with _ | ⟨tl, ta, tc⟩
  · rw [ht] at h2; simp at h2
  refine ⟨(note_to_chromatic tl (accidentalAlter ta) -
        note_to_chromatic fl (accidentalAlter fa)) % 12,
      (note_to_chromatic fl (accidentalAlter fa) -
        note_to_chromatic tl (accidentalAlter ta)) % 12,
      ?_, ?_, ?_, ?_, ?_, ?_, ?_⟩
  · simp [calculate_semitone_shift, hf, ht]
  · simp [calculate_semitone_shift, hf, ht]
  · exact Int.emod_nonneg _ (by norm_num)
  · exact Int.emod_lt_of_pos _ (by norm_num)
  · exact Int.emod_nonneg _ (by norm_num)
  · exact Int.emod_lt_of_pos _ (by norm_num)
  · omega

/-! ### The top-level transposition on its success path -/

/-- `transpose_musicxml` with a present source key, a valid target key and a
successfully computed shift: every marker is rewritten by `transpose_elem`,
and the output path is the caller's or the derived default. -/
theorem transpose_musicxml_ok (mf : MusicXMLFile) (k tk : Int)
    (op : Option String) (doc : List Elem) (tl : Letter)
    (tacc : Option Accidental) (tcnt : Nat) (s : Int)
    (hkey : mf.key_signature = some k)
    (htgt : KEY_SIGNATURES tk = some (tl, tacc, tcnt))
    (hs : calculate_semitone_shift k tk = .ok s) :
    transpose_musicxml mf tk op doc =
      .ok (doc.map (transpose_elem tk s (decide (0 ≤ tk))),
        match op with
        | some p => p
        | none => default_output_path mf.file_path tl) := by
  simp [transpose_musicxml, hkey, htgt, hs]

/-- With the positive divisor 12, Python's floor division agrees with
Euclidean division (which `omega` can reason about). -/
theorem fdiv_twelve_eq_ediv (x : Int) : Int.fdiv x 12 = x / 12 :=
  Int.fdiv_eq_ediv x (by norm_num)

theorem elemView_mkPitch (l : Letter) (a : Option Int) (o : Int) :
    elemView (.pitch (mkPitch l a o)) = some (note_to_chromatic l (a.getD 0), o) := by
  cases a <;> simp [elemView, mkPitch, find_step, find_alter, find_octave]

/-- A rewritten schema-conforming pitch element shows exactly the shifted
pitch class and the carried octave. -/
theorem elemView_transpose_pitch (s : Int) (p : Bool) (l : Letter)
    (a : Option Int) (o : Int) :
    elemView (.pitch (transpose_pitch s p (mkPitch l a o))) =
      some ((note_to_chromatic l (a.getD 0) + s) % 12,
        o + Int.fdiv (note_to_chromatic l (a.getD 0) + s) 12) := by
  rw [transpose_pitch_mkPitch]
  have h0 : 0 ≤ (note_to_chromatic l (a.getD 0) + s) % 12 :=
    Int.emod_nonneg _ (by norm_num)
  have h1 : (note_to_chromatic l (a.getD 0) + s) % 12 < 12 :=
    Int.emod_lt_of_pos _ (by norm_num)
  have hinv := (chromatic_to_note_get_inv _ h0 h1 p).1
  rcases hns : chromatic_to_note_get ((note_to_chromatic l (a.getD 0) + s) % 12) p with ⟨nl, na⟩
  rw [hns] at hinv
  dsimp only at hinv ⊢
  by_cases h : na = 0
  · rw [h] at hinv
    rw [if_pos h, elemView_mkPitch]
    simp only [Option.getD_none]
    rw [hinv]
  · rw [if_neg h, elemView_mkPitch]
    simp only [Option.getD_some]
    rw [hinv]

/-- A pitch element missing its step or octave child is returned untouched
(lines 140 and 135-144 of src/transpose.py guard the rewrite). -/
theorem transpose_pitch_skip (s : Int) (p : Bool) (cs : List PitchNode)
    (h : find_step cs = none ∨ find_octave cs = none) :
    transpose_pitch s p cs = cs := by
  rcases hfs : find_step cs with _ | l
  · simp [transpose_pitch, hfs]
  · rcases hfo : find_octave cs with _ | o
    · simp [transpose_pitch, hfs, hfo]
    · rcases h with h | h
      · rw [hfs] at h; simp at h
      · rw [hfo] at h; simp at h

/-- A schema-conforming pitch element stays schema-conforming: the rewrite
produces some letter and optional alter whose projected pitch class is the
shifted one, over the carried octave. -/
theorem transpose_pitch_shape (s : Int) (p : Bool) (l : Letter)
    (a : Option Int) (o : Int) :
    ∃ l2 a2, transpose_pitch s p (mkPitch l a o) =
        mkPitch l2 a2 (o + Int.fdiv (note_to_chromatic l (a.getD 0) + s) 12) ∧
      note_to_chromatic l2 (a2.getD 0) = (note_to_chromatic l (a.getD 0) + s) % 12 := by
  have h0 : 0 ≤ (note_to_chromatic l (a.getD 0) + s) % 12 :=
    Int.emod_nonneg _ (by norm_num)
  have h1 : (note_to_chromatic l (a.getD 0) + s) % 12 < 12 :=
    Int.emod_lt_of_pos _ (by norm_num)
  have hinv := (chromatic_to_note_get_inv _ h0 h1 p).1
  have heq := transpose_pitch_mkPitch s p l a o
  rcases hns : chromatic_to_note_get ((note_to_chromatic l (a.getD 0) + s) % 12) p with ⟨nl, na⟩
  rw [hns] at hinv heq
  dsimp only at hinv heq
  refine ⟨nl, if na = 0 then none else some na, heq, ?_⟩
  by_cases h : na = 0
  · rw [h] at hinv
    simp only [if_pos h, Option.getD_none]
    exact hinv
  · simp only [if_neg h, Option.getD_some]
    exact hinv

/-- wfElem on a pitch element forces the `mkPitch` shape. -/
theorem wfElem_pitch_shape (cs : List PitchNode) (h : wfElem (.pitch cs) = true) :
    ∃ l a o, cs = mkPitch l a o := by
  cases cs with
  | nil => simp [wfElem] at h
  | cons n0 rest =>
    cases n0 with
    | step l =>
      cases rest with
      | nil => simp [wfElem] at h
      | cons n1 rest2 =>
        cases n1 with
        | step l2 => simp [wfElem] at h
        | alter v =>
          cases rest2 with
          | nil => simp [wfElem] at h
          | cons n2 rest3 =>
            cases n2 with
            | step _ => simp [wfElem] at h
            | alter _ => simp [wfElem] at h
            | octave o =>
              cases rest3 with
              | nil => exact ⟨l, some v, o, rfl⟩
              | cons _ _ => simp [wfElem] at h
        | octave o =>
          cases rest2 with
          | nil => exact ⟨l, none, o, rfl⟩
          | cons _ _ => simp [wfElem] at h
    | alter v => simp [wfElem] at h
    | octave v => simp [wfElem] at h

/-- One marker through the forward and then the backward rewrite: the pitch
class returns to its origin, and the octave gains one unless the forward
shift was zero (the engine only ever transposes upward). -/
theorem elemView_round_trip (tk1 tk2 s1 s2 : Int) (p1 p2 : Bool) (e : Elem)
    (hwf : wfElem e = true)
    (hs1 : 0 ≤ s1) (hs1b : s1 < 12) (hs2 : 0 ≤ s2) (hs2b : s2 < 12)
    (hsum : (s1 + s2) % 12 = 0) :
    elemView (transpose_elem tk2 s2 p2 (transpose_elem tk1 s1 p1 e)) =
      (elemView e).map (fun v => (v.1, v.2 + if s1 = 0 then 0 else 1)) := by
  cases e with
  | key f => cases f <;> simp [transpose_elem, elemView]
  | other => simp [transpose_elem, elemView]
  | pitch cs =>
    obtain ⟨l, a, o, rfl⟩ := wfElem_pitch_shape cs hwf
    obtain ⟨l1, a1, heq1, hv1⟩ := transpose_pitch_shape s1 p1 l a o
    have hpc0 := note_to_chromatic_nonneg l (a.getD 0)
    have hpc1 := note_to_chromatic_lt l (a.getD 0)
    have hte : ∀ (tk s : Int) (q : Bool) (cs : List PitchNode),
        transpose_elem tk s q (.pitch cs) = .pitch (transpose_pitch s q cs) :=
      fun _ _ _ _ => rfl
    rw [hte, heq1, hte, elemView_transpose_pitch, elemView_mkPitch, hv1]
    simp only [Option.map_some', Option.some.injEq, Prod.mk.injEq]
    rw [fdiv_twelve_eq_ediv, fdiv_twelve_eq_ediv]
    constructor
    · omega
    · by_cases hz : s1 = 0
      · simp only [if_pos hz]
        omega
      · simp only [if_neg hz]
        omega

/-- A zero shift keeps a natural pitch exactly as it came in; an explicit
alter child carrying value 0 is dropped (the value stays 0). -/
theorem transpose_pitch_zero_natural (p : Bool) (l : Letter) (o : Int) :
    transpose_pitch 0 p (mkPitch l none o) = mkPitch l none o ∧
    transpose_pitch 0 p (mkPitch l (some 0) o) = mkPitch l none o := by
  have hpc0 := note_to_chromatic_nonneg l 0
  have hpc1 := note_to_chromatic_lt l 0
  have hmod : (note_to_chromatic l 0 + 0) % 12 = note_to_chromatic l 0 := by omega
  have hdiv : Int.fdiv (note_to_chromatic l 0 + 0) 12 = 0 := by
    rw [fdiv_twelve_eq_ediv]; omega
  have hnat := chromatic_to_note_get_natural l p
  constructor
  · rw [transpose_pitch_mkPitch]
    simp only [Option.getD_none, hmod, hdiv, hnat]
    simp
  · rw [transpose_pitch_mkPitch]
    simp only [Option.getD_some, hmod, hdiv, hnat]
    simp

/-- A zero shift never changes a marker's pitch class or octave. -/
theorem elemView_shift_zero (tk : Int) (p : Bool) (e : Elem)
    (hwf : wfElem e = true) :
    elemView (transpose_elem tk 0 p e) = elemView e := by
  cases e with
  | key f => cases f <;> simp [transpose_elem, elemView]
  | other => simp [transpose_elem, elemView]
  | pitch cs =>
    obtain ⟨l, a, o, rfl⟩ := wfElem_pitch_shape cs hwf
    have hpc0 := note_to_chromatic_nonneg l (a.getD 0)
    have hpc1 := note_to_chromatic_lt l (a.getD 0)
    have hte : ∀ (tk s : Int) (q : Bool) (cs : List PitchNode),
        transpose_elem tk s q (.pitch cs) = .pitch (transpose_pitch s q cs) :=
      fun _ _ _ _ => rfl
    rw [hte, elemView_transpose_pitch, elemView_mkPitch]
    simp only [Option.some.injEq, Prod.mk.injEq]
    rw [fdiv_twelve_eq_ediv]
    constructor
    · omega
    · omega

/-- `elemView_shift_zero` lifted over a whole document. -/
theorem map_elemView_shift_zero (tk : Int) (p : Bool) (doc : List Elem)
    (hwf : doc.all wfElem = true) :
    (doc.map (transpose_elem tk 0 p)).map elemView = doc.map elemView := by
  induction doc with
  | nil => rfl
  | cons e rest ih =>
    rw [List.all_cons, Bool.and_eq_true] at hwf
    simp only [List.map_cons]
    rw [elemView_shift_zero tk p e hwf.1, ih hwf.2]

/-- `elemView_round_trip` lifted over a whole document. -/
theorem map_elemView_round_trip (tk1 tk2 s1 s2 : Int) (p1 p2 : Bool)
    (doc : List Elem) (hwf : doc.all wfElem = true)
    (hs1 : 0 ≤ s1) (hs1b : s1 < 12) (hs2 : 0 ≤ s2) (hs2b : s2 < 12)
    (hsum : (s1 + s2) % 12 = 0) :
    ((doc.map (transpose_elem tk1 s1 p1)).map (transpose_elem tk2 s2 p2)).map elemView =
      doc.map (fun e => (elemView e).map (fun v => (v.1, v.2 + if s1 = 0 then 0 else 1))) := by
  induction doc with
  | nil => rfl
  | cons e rest ih =>
    rw [List.all_cons, Bool.and_eq_true] at hwf
    simp only [List.map_cons]
    rw [elemView_round_trip tk1 tk2 s1 s2 p1 p2 e hwf.1 hs1 hs1b hs2 hs2b hsum,
      ih hwf.2]

/-! ### The claims -/

/-- The tonic chromatic class as the spec's `semitoneShift` contract words
it, for comparison with the code: the tonic letter's base chromatic offset
adjusted by +1 for a sharp accidental-kind, -1 for flat, 0 for none. -/
def spec_tonic_class (k : Int) : Int :=
  match KEY_SIGNATURES k with
  | some (l, acc, _) => base_notes l + accidentalAlter acc
  | none => 0

/-- Claim C4: for every pair of keys in the 15-entry table,
`calculate_semitone_shift` succeeds with exactly
`(toTonicClass - fromTonicClass) mod 12` (tonic class = base offset of the
tonic letter, +1 sharp / -1 flat / 0 none), and the result lies in [0, 11]. -/
theorem C4_semitone_shift_formula (from_key to_key : Int)
    (hf0 : -7 ≤ from_key) (hf1 : from_key ≤ 7)
    (ht0 : -7 ≤ to_key) (ht1 : to_key ≤ 7) :
    ∃ s, calculate_semitone_shift from_key to_key = Except.ok s ∧
      s = (spec_tonic_class to_key - spec_tonic_class from_key) % 12 ∧
      0 ≤ s ∧ s ≤ 11 := by
  have h1 := KEY_SIGNATURES_isSome_of_range from_key hf0 hf1
  have h2 := KEY_SIGNATURES_isSome_of_range to_key ht0 ht1
  rcases hf : KEY_SIGNATURES from_key with _ | ⟨fl, fa, fc⟩
  · rw [hf] at h1; simp at h1
  rcases ht : KEY_SIGNATURES to_key with _ | ⟨tl, ta, tc⟩
  · rw [ht] at h2; simp at h2
  refine ⟨(note_to_chromatic tl (accidentalAlter ta) -
      note_to_chromatic fl (accidentalAlter fa)) % 12, ?_, ?_, ?_, ?_⟩
  · simp [calculate_semitone_shift, hf, ht]
  · simp only [spec_tonic_class, hf, ht, note_to_chromatic]
    omega
  · exact Int.emod_nonneg _ (by norm_num)
  · have := Int.emod_lt_of_pos (note_to_chromatic tl (accidentalAlter ta) -
      note_to_chromatic fl (accidentalAlter fa)) (show (0:Int) < 12 by norm_num)
    omega

/-- Witness for C4 at `from_key = 0` (C major), `to_key = 2` (D major). -/
theorem C4_semitone_shift_formula_witness :
    ((-7 : Int) ≤ 0 ∧ (0 : Int) ≤ 7 ∧ (-7 : Int) ≤ 2 ∧ (2 : Int) ≤ 7) ∧
    ∃ s, calculate_semitone_shift 0 2 = Except.ok s ∧
      s = (spec_tonic_class 2 - spec_tonic_class 0) % 12 ∧ 0 ≤ s ∧ s ≤ 11 :=
  ⟨⟨by norm_num, by norm_num, by norm_num, by norm_num⟩,
    C4_semitone_shift_formula 0 2 (by norm_num) (by norm_num) (by norm_num)
      (by norm_num)⟩

/-- Claim C5: for a shift in [0, 11] the rewriter leaves a pitch whose class
is `(pc + shift) mod 12` over the octave `octave + carry`, with
`carry = floor((pc + shift) / 12)` always 0 or 1 (pc = the marker's
chromatic class, itself always in [0, 11]). -/
theorem C5_rewriter_octave_carry (semitone_shift : Int) (prefer_sharps : Bool)
    (l : Letter) (a : Option Int) (o : Int)
    (hs0 : 0 ≤ semitone_shift) (hs1 : semitone_shift ≤ 11) :
    (Int.fdiv (note_to_chromatic l (a.getD 0) + semitone_shift) 12 = 0 ∨
      Int.fdiv (note_to_chromatic l (a.getD 0) + semitone_shift) 12 = 1) ∧
    elemView (.pitch (transpose_pitch semitone_shift prefer_sharps (mkPitch l a o))) =
      some ((note_to_chromatic l (a.getD 0) + semitone_shift) % 12,
        o + Int.fdiv (note_to_chromatic l (a.getD 0) + semitone_shift) 12) := by
  have hpc0 := note_to_chromatic_nonneg l (a.getD 0)
  have hpc1 := note_to_chromatic_lt l (a.getD 0)
  constructor
  · rw [fdiv_twelve_eq_ediv]
    omega
  · exact elemView_transpose_pitch semitone_shift prefer_sharps l a o

/-- Witness for C5: the octave-boundary scenario B4 with shift 2 lands on
pitch class 1 in octave 5. -/
theorem C5_rewriter_octave_carry_witness :
    ((0 : Int) ≤ 2 ∧ (2 : Int) ≤ 11) ∧
    ((Int.fdiv (note_to_chromatic .B ((none : Option Int).getD 0) + 2) 12 = 0 ∨
      Int.fdiv (note_to_chromatic .B ((none : Option Int).getD 0) + 2) 12 = 1) ∧
    elemView (.pitch (transpose_pitch 2 true (mkPitch .B none 4))) =
      some ((note_to_chromatic .B ((none : Option Int).getD 0) + 2) % 12,
        4 + Int.fdiv (note_to_chromatic .B ((none : Option Int).getD 0) + 2) 12)) :=
  ⟨⟨by norm_num, by norm_num⟩,
    C5_rewriter_octave_carry 2 true .B none 4 (by norm_num) (by norm_num)⟩

/-- Claim C6: on every class in [0, 11] and either flag,
`chromatic_to_note` succeeds with an alteration in {-1, 0, 1} that
`note_to_chromatic` maps back to the class, and on the seven natural
classes it returns alteration 0 independently of the flag. -/
theorem C6_chromatic_to_note_inverse (c : Int) (p : Bool)
    (h0 : 0 ≤ c) (h1 : c ≤ 11) :
    ∃ l a, chromatic_to_note c p = some (l, a) ∧
      (a = -1 ∨ a = 0 ∨ a = 1) ∧
      note_to_chromatic l a = c ∧
      ((c = 0 ∨ c = 2 ∨ c = 4 ∨ c = 5 ∨ c = 7 ∨ c = 9 ∨ c = 11) →
        a = 0 ∧ chromatic_to_note c true = chromatic_to_note c false) := by
  interval_cases c <;> cases p <;>
    exact ⟨_, _, rfl, by decide, by decide, by decide⟩

/-- Witness for C6 at class 1 with sharps preferred: C sharp. -/
theorem C6_chromatic_to_note_inverse_witness :
    ((0 : Int) ≤ 1 ∧ (1 : Int) ≤ 11) ∧
    ∃ l a, chromatic_to_note 1 true = some (l, a) ∧
      (a = -1 ∨ a = 0 ∨ a = 1) ∧
      note_to_chromatic l a = 1 ∧
      (((1 : Int) = 0 ∨ (1 : Int) = 2 ∨ (1 : Int) = 4 ∨ (1 : Int) = 5 ∨
          (1 : Int) = 7 ∨ (1 : Int) = 9 ∨ (1 : Int) = 11) →
        a = 0 ∧ chromatic_to_note 1 true = chromatic_to_note 1 false) :=
  ⟨⟨by norm_num, by norm_num⟩,
    C6_chromatic_to_note_inverse 1 true (by norm_num) (by norm_num)⟩

/-- Claim C10: `chromatic_to_note` is total over all integers: it reduces
its argument modulo 12 before any lookup, so it agrees with itself at
`n mod 12` and never fails. -/
theorem C10_chromatic_to_note_total_mod (n : Int) (p : Bool) :
    chromatic_to_note n p = chromatic_to_note (n % 12) p ∧
    (chromatic_to_note n p).isSome = true := by
  constructor
  · unfold chromatic_to_note
    rw [Int.emod_emod_of_dvd n (dvd_refl 12)]
  · exact chromatic_to_note_total n p

/-- Claim C7: on a schema-conforming pitch the rewriter leaves no alter
child when the new alteration is 0 (an existing one is removed), and
otherwise leaves exactly one alter child carrying the new alteration,
sitting between the step child and the octave child (created there at
index 1 if absent, overwritten in place if present); in particular Bb4
shifted by two semitones (pitch class 10 to 0) comes out as C5 with no
alter child. -/
theorem C7_alter_marker_placement (semitone_shift : Int) (prefer_sharps : Bool)
    (l : Letter) (a : Option Int) (o : Int) :
    transpose_pitch semitone_shift prefer_sharps (mkPitch l a o) =
      mkPitch
        (chromatic_to_note_get
          ((note_to_chromatic l (a.getD 0) + semitone_shift) % 12) prefer_sharps).1
        (if (chromatic_to_note_get
            ((note_to_chromatic l (a.getD 0) + semitone_shift) % 12) prefer_sharps).2 = 0
          then none
          else some (chromatic_to_note_get
            ((note_to_chromatic l (a.getD 0) + semitone_shift) % 12) prefer_sharps).2)
        (o + Int.fdiv (note_to_chromatic l (a.getD 0) + semitone_shift) 12) ∧
    transpose_pitch 2 true (mkPitch .B (some (-1)) 4) = mkPitch .C none 5 :=
  ⟨transpose_pitch_mkPitch semitone_shift prefer_sharps l a o, by decide⟩

/-- Claim C8: a pitch marker missing its step or its octave child is left
untouched while the rest of the document is still rewritten, and the
transposition still succeeds. -/
theorem C8_malformed_pitch_passthrough (mf : MusicXMLFile) (k target_key : Int)
    (op : Option String) (doc : List Elem)
    (hkey : mf.key_signature = some k)
    (hsrc : (KEY_SIGNATURES k).isSome = true)
    (htgt : (KEY_SIGNATURES target_key).isSome = true) :
    ∃ s out, calculate_semitone_shift k target_key = Except.ok s ∧
      transpose_musicxml mf target_key op doc = Except.ok out ∧
      out.1 = doc.map (transpose_elem target_key s (decide (0 ≤ target_key))) ∧
      ∀ cs : List PitchNode, (find_step cs = none ∨ find_octave cs = none) →
        transpose_elem target_key s (decide (0 ≤ target_key)) (.pitch cs) = .pitch cs := by
  obtain ⟨s, hs, hge, hlt⟩ := calculate_semitone_shift_ok k target_key hsrc htgt
  rcases ht : KEY_SIGNATURES target_key with _ | ⟨tl, tacc, tcnt⟩
  · rw [ht] at htgt; simp at htgt
  refine ⟨s, _, hs,
    transpose_musicxml_ok mf k target_key op doc tl tacc tcnt s hkey ht hs, rfl, ?_⟩
  intro cs h
  exact congrArg Elem.pitch (transpose_pitch_skip s (decide (0 ≤ target_key)) cs h)

/-- Witness for C8: a document whose only pitch marker has just an octave
child survives a C major to D major transposition unchanged. -/
theorem C8_malformed_pitch_passthrough_witness :
    ((⟨"song.xml", some 0, none, none⟩ : MusicXMLFile).key_signature = some 0 ∧
      (KEY_SIGNATURES 0).isSome = true ∧ (KEY_SIGNATURES 2).isSome = true) ∧
    ∃ s out, calculate_semitone_shift 0 2 = Except.ok s ∧
      transpose_musicxml ⟨"song.xml", some 0, none, none⟩ 2 none
          [.pitch [.octave 4], .key (some 0)] = Except.ok out ∧
      out.1 = [Elem.pitch [.octave 4], Elem.key (some 0)].map
        (transpose_elem 2 s (decide ((0 : Int) ≤ 2))) ∧
      ∀ cs : List PitchNode, (find_step cs = none ∨ find_octave cs = none) →
        transpose_elem 2 s (decide ((0 : Int) ≤ 2)) (.pitch cs) = .pitch cs :=
  ⟨⟨rfl, rfl, rfl⟩,
    C8_malformed_pitch_passthrough ⟨"song.xml", some 0, none, none⟩ 0 2 none
      [.pitch [.octave 4], .key (some 0)] rfl rfl rfl⟩

/-- Claim C9: the default output path depends on the target key only
through its tonic letter, so two target keys with the same tonic letter
send the same input file to the same output path. -/
theorem C9_default_path_tonic_letter (mf : MusicXMLFile) (k t1 t2 : Int)
    (doc : List Elem) (l : Letter) (acc1 acc2 : Option Accidental) (n1 n2 : Nat)
    (hkey : mf.key_signature = some k)
    (hsrc : (KEY_SIGNATURES k).isSome = true)
    (h1 : KEY_SIGNATURES t1 = some (l, acc1, n1))
    (h2 : KEY_SIGNATURES t2 = some (l, acc2, n2)) :
    ∃ d1 d2 pth, transpose_musicxml mf t1 none doc = Except.ok (d1, pth) ∧
      transpose_musicxml mf t2 none doc = Except.ok (d2, pth) := by
  obtain ⟨s1, hs1, _, _⟩ := calculate_semitone_shift_ok k t1 hsrc (by rw [h1]; rfl)
  obtain ⟨s2, hs2, _, _⟩ := calculate_semitone_shift_ok k t2 hsrc (by rw [h2]; rfl)
  exact ⟨_, _, default_output_path mf.file_path l,
    transpose_musicxml_ok mf k t1 none doc l acc1 n1 s1 hkey h1 hs1,
    transpose_musicxml_ok mf k t2 none doc l acc2 n2 s2 hkey h2 hs2⟩

/-- Witness for C9: transposing from C major to G major (fifths 1) and to
Gb major (fifths -6) writes to the same default path. -/
theorem C9_default_path_tonic_letter_witness :
    ((⟨"song.xml", some 0, none, none⟩ : MusicXMLFile).key_signature = some 0 ∧
      (KEY_SIGNATURES 0).isSome = true ∧
      KEY_SIGNATURES 1 = some (.G, none, 1) ∧
      KEY_SIGNATURES (-6) = some (.G, some .flat, 6)) ∧
    ∃ d1 d2 pth,
      transpose_musicxml ⟨"song.xml", some 0, none, none⟩ 1 none
        [.pitch (mkPitch .C none 4)] = Except.ok (d1, pth) ∧
      transpose_musicxml ⟨"song.xml", some 0, none, none⟩ (-6) none
        [.pitch (mkPitch .C none 4)] = Except.ok (d2, pth) :=
  ⟨⟨rfl, rfl, rfl, rfl⟩,
    C9_default_path_tonic_letter ⟨"song.xml", some 0, none, none⟩ 0 1 (-6)
      [.pitch (mkPitch .C none 4)] .G none (some .flat) 1 6 rfl rfl rfl rfl⟩

/-- Counterexample to claim C1 as stated: in a document holding the single
pitch Bb4, transposing from C major to C major (shift 0) re-spells the
pitch as A sharp 4 - letter and alteration change even though the shift
is zero, because the rewriter re-derives the spelling from the
prefer-sharps policy. -/
theorem C1_counterexample :
    transpose_musicxml ⟨"song.xml", some 0, none, none⟩ 0 none
        [.pitch (mkPitch .B (some (-1)) 4)] =
      Except.ok ([.pitch (mkPitch .A (some 1) 4)],
        default_output_path "song.xml" .C) ∧
    mkPitch .A (some 1) 4 ≠ mkPitch .B (some (-1)) 4 :=
  ⟨rfl, by decide⟩

/-- Claim C1 (amended): transposing a well-formed document to its own key
succeeds and leaves every pitch marker's chromatic class and octave
unchanged; a pitch whose spelling already matches the policy - in
particular every natural pitch - keeps letter and alteration (an explicit
alter child carrying 0 is dropped, its value staying 0), but a pitch
spelled against the policy (for example Bb under prefer-sharps) is
re-spelled enharmonically. -/
theorem C1_same_key_transposition (mf : MusicXMLFile) (k : Int)
    (op : Option String) (doc : List Elem)
    (hkey : mf.key_signature = some k)
    (hval : (KEY_SIGNATURES k).isSome = true)
    (hwf : doc.all wfElem = true) :
    ∃ out, transpose_musicxml mf k op doc = Except.ok out ∧
      out.1 = doc.map (transpose_elem k 0 (decide (0 ≤ k))) ∧
      out.1.map elemView = doc.map elemView ∧
      ∀ (l : Letter) (o : Int),
        transpose_elem k 0 (decide (0 ≤ k)) (.pitch (mkPitch l none o)) =
          .pitch (mkPitch l none o) ∧
        transpose_elem k 0 (decide (0 ≤ k)) (.pitch (mkPitch l (some 0) o)) =
          .pitch (mkPitch l none o) := by
  have hs := calculate_semitone_shift_self k hval
  rcases ht : KEY_SIGNATURES k with _ | ⟨tl, tacc, tcnt⟩
  · rw [ht] at hval; simp at hval
  refine ⟨_, transpose_musicxml_ok mf k k op doc tl tacc tcnt 0 hkey ht hs,
    rfl, ?_, ?_⟩
  · exact map_elemView_shift_zero k (decide (0 ≤ k)) doc hwf
  · intro l o
    exact ⟨congrArg Elem.pitch (transpose_pitch_zero_natural (decide (0 ≤ k)) l o).1,
      congrArg Elem.pitch (transpose_pitch_zero_natural (decide (0 ≤ k)) l o).2⟩

/-- Witness for C1 at key 3 (A major) on a document with one natural pitch
and one key marker. -/
theorem C1_same_key_transposition_witness :
    ((⟨"a.xml", some 3, none, none⟩ : MusicXMLFile).key_signature = some 3 ∧
      (KEY_SIGNATURES 3).isSome = true ∧
      [Elem.pitch (mkPitch .D none 5), Elem.key (some 3)].all wfElem = true) ∧
    ∃ out, transpose_musicxml ⟨"a.xml", some 3, none, none⟩ 3 none
        [.pitch (mkPitch .D none 5), .key (some 3)] = Except.ok out ∧
      out.1 = [Elem.pitch (mkPitch .D none 5), Elem.key (some 3)].map
        (transpose_elem 3 0 (decide ((0 : Int) ≤ 3))) ∧
      out.1.map elemView =
        [Elem.pitch (mkPitch .D none 5), Elem.key (some 3)].map elemView ∧
      ∀ (l : Letter) (o : Int),
        transpose_elem 3 0 (decide ((0 : Int) ≤ 3)) (.pitch (mkPitch l none o)) =
          .pitch (mkPitch l none o) ∧
        transpose_elem 3 0 (decide ((0 : Int) ≤ 3)) (.pitch (mkPitch l (some 0) o)) =
          .pitch (mkPitch l none o) :=
  ⟨⟨rfl, rfl, rfl⟩,
    C1_same_key_transposition ⟨"a.xml", some 3, none, none⟩ 3 none
      [.pitch (mkPitch .D none 5), .key (some 3)] rfl rfl rfl⟩

/-- Counterexample to claim C2 as stated: the document holding the single
pitch C4, transposed from C major to D major and back, returns with the
right pitch class but with octave 5 instead of 4 - both legs of the round
trip move upward, so the octaves do not round-trip. -/
theorem C2_counterexample :
    transpose_musicxml ⟨"song.xml", some 0, none, none⟩ 2 none
        [.pitch (mkPitch .C none 4)] =
      Except.ok ([.pitch (mkPitch .D none 4)],
        default_output_path "song.xml" .D) ∧
    transpose_musicxml ⟨"song.xml", some 2, none, none⟩ 0 none
        [.pitch (mkPitch .D none 4)] =
      Except.ok ([.pitch (mkPitch .C none 5)],
        default_output_path "song.xml" .C) ∧
    (5 : Int) ≠ (4 : Int) :=
  ⟨rfl, rfl, by decide⟩

/-- Claim C2 (amended): transposing a well-formed document from key A to
key B and the result back from B to A reproduces every pitch marker's
chromatic pitch class; every octave, however, comes back raised by one
whenever the two keys have different tonic chromatic classes (the forward
shift is nonzero), and unchanged only when the shift is zero. -/
theorem C2_round_trip_pitch_classes (mf1 mf2 : MusicXMLFile) (k1 k2 : Int)
    (op1 op2 : Option String) (doc : List Elem)
    (h1 : mf1.key_signature = some k1) (h2 : mf2.key_signature = some k2)
    (hv1 : (KEY_SIGNATURES k1).isSome = true)
    (hv2 : (KEY_SIGNATURES k2).isSome = true)
    (hwf : doc.all wfElem = true) :
    ∃ s1 out1 out2, calculate_semitone_shift k1 k2 = Except.ok s1 ∧
      transpose_musicxml mf1 k2 op1 doc = Except.ok out1 ∧
      transpose_musicxml mf2 k1 op2 out1.1 = Except.ok out2 ∧
      out2.1.map elemView =
        doc.map (fun e => (elemView e).map
          (fun v => (v.1, v.2 + if s1 = 0 then 0 else 1))) := by
  obtain ⟨s1, s2, hs1, hs2, hb1, hb2, hb3, hb4, hsum⟩ :=
    calculate_semitone_shift_symm k1 k2 hv1 hv2
  rcases ht2 : KEY_SIGNATURES k2 with _ | ⟨l2, a2, c2⟩
  · rw [ht2] at hv2; simp at hv2
  rcases ht1 : KEY_SIGNATURES k1 with _ | ⟨l1, a1, c1⟩
  · rw [ht1] at hv1; simp at hv1
  refine ⟨s1, _, _, hs1,
    transpose_musicxml_ok mf1 k1 k2 op1 doc l2 a2 c2 s1 h1 ht2 hs1,
    transpose_musicxml_ok mf2 k2 k1 op2 _ l1 a1 c1 s2 h2 ht1 hs2, ?_⟩
  exact map_elemView_round_trip k2 k1 s1 s2 (decide (0 ≤ k2)) (decide (0 ≤ k1))
    doc hwf hb1 hb2 hb3 hb4 hsum

/-- Witness for C2: C4 in a C major document, to D major and back. -/
theorem C2_round_trip_pitch_classes_witness :
    ((⟨"song.xml", some 0, none, none⟩ : MusicXMLFile).key_signature = some 0 ∧
      (⟨"song.xml", some 2, none, none⟩ : MusicXMLFile).key_signature = some 2 ∧
      (KEY_SIGNATURES 0).isSome = true ∧ (KEY_SIGNATURES 2).isSome = true ∧
      [Elem.pitch (mkPitch .C none 4)].all wfElem = true) ∧
    ∃ s1 out1 out2, calculate_semitone_shift 0 2 = Except.ok s1 ∧
      transpose_musicxml ⟨"song.xml", some 0, none, none⟩ 2 none
        [.pitch (mkPitch .C none 4)] = Except.ok out1 ∧
      transpose_musicxml ⟨"song.xml", some 2, none, none⟩ 0 none out1.1 =
        Except.ok out2 ∧
      out2.1.map elemView =
        [Elem.pitch (mkPitch .C none 4)].map (fun e => (elemView e).map
          (fun v => (v.1, v.2 + if s1 = 0 then 0 else 1))) :=
  ⟨⟨rfl, rfl, rfl, rfl, rfl⟩,
    C2_round_trip_pitch_classes ⟨"song.xml", some 0, none, none⟩
      ⟨"song.xml", some 2, none, none⟩ 0 2 none none
      [.pitch (mkPitch .C none 4)] rfl rfl rfl rfl rfl⟩

/-- Counterexample to claim C3 as stated: a present source key of 8 - outside
[-7, 7] - makes `transpose_musicxml` fail with the unhandled lookup failure
`KeyError: 8` escaping from `calculate_semitone_shift`, not with the designed
invalid-key `ValueError` the claim requires for an out-of-range source key. -/
theorem C3_counterexample :
    transpose_musicxml ⟨"song.xml", some 8, none, none⟩ 0 none [] =
      Except.error (.keyError 8) ∧
    isInvalidKeyError (.keyError 8) = false :=
  ⟨rfl, rfl⟩

/-- Claim C3 (amended): the designed invalid-key failure (`ValueError`)
occurs exactly when the source key is absent or the target key lies outside
[-7, 7]; the two designed failures are distinct values, and the
out-of-range-target one names the offending value.  A present source key
outside [-7, 7] instead escapes as an unhandled key-lookup failure naming
that key.  In particular source None / target 2 and source 0 / target 9
both raise the designed error. -/
theorem C3_invalid_key_validation (mf : MusicXMLFile) (target_key : Int)
    (op : Option String) (doc : List Elem) :
    ((∃ e, transpose_musicxml mf target_key op doc = Except.error e ∧
        isInvalidKeyError e = true) ↔
      (mf.key_signature = none ∨ KEY_SIGNATURES target_key = none)) ∧
    (∀ k, mf.key_signature = some k → KEY_SIGNATURES target_key ≠ none →
      KEY_SIGNATURES k = none →
      transpose_musicxml mf target_key op doc = Except.error (.keyError k)) ∧
    transpose_musicxml ⟨mf.file_path, none, mf.time_signature, mf.part_name⟩
      2 op doc = Except.error .valueErrorNoSource ∧
    transpose_musicxml ⟨mf.file_path, some 0, mf.time_signature, mf.part_name⟩
      9 op doc = Except.error (.valueErrorBadTarget 9) ∧
    PyError.valueErrorNoSource ≠ PyError.valueErrorBadTarget 9 := by
  refine ⟨⟨?_, ?_⟩, ?_, rfl, rfl, by decide⟩
  · rintro ⟨e, he, hinv⟩
    rcases hk : mf.key_signature with _ | k
    · exact Or.inl rfl
    rcases ht : KEY_SIGNATURES target_key with _ | ⟨tl, tacc, tcnt⟩
    · exact Or.inr rfl
    exfalso
    rcases hsk : KEY_SIGNATURES k with _ | ⟨fl, facc, fcnt⟩
    · have hcalc : calculate_semitone_shift k target_key =
          Except.error (.keyError k) := by
        simp [calculate_semitone_shift, hsk]
      simp [transpose_musicxml, hk, ht, hcalc] at he
      rw [← he] at hinv
      simp [isInvalidKeyError] at hinv
    · obtain ⟨s, hcalc, _, _⟩ := calculate_semitone_shift_ok k target_key
        (by rw [hsk]; rfl) (by rw [ht]; rfl)
      simp [transpose_musicxml, hk, ht, hcalc] at he
  · rintro (hnone | htnone)
    · exact ⟨.valueErrorNoSource, by simp [transpose_musicxml, hnone], rfl⟩
    · rcases hk : mf.key_signature with _ | k
      · exact ⟨.valueErrorNoSource, by simp [transpose_musicxml, hk], rfl⟩
      · exact ⟨.valueErrorBadTarget target_key,
          by simp [transpose_musicxml, hk, htnone], rfl⟩
  · intro k hk htv hsk
    rcases ht : KEY_SIGNATURES target_key with _ | ⟨tl, tacc, tcnt⟩
    · exact absurd ht htv
    · have hcalc : calculate_semitone_shift k target_key =
          Except.error (.keyError k) := by
        simp [calculate_semitone_shift, hsk]
      simp [transpose_musicxml, hk, ht, hcalc]
